import Mathlib

/-!
Shallow embedding of the task-list core of the `tda` repository
(`src/utils.rs`), together with proofs checking the specification's
claims about it.

Modelling conventions:
* Rust `i32` is embedded as `Int`; where the source performs `i32`
  arithmetic whose overflow matters (`id_tracker += 1`) the wrap-around
  is made explicit via `wrap32`.
* Rust `u8` counters (`get_status`) are embedded as `Nat` with explicit
  `% 256` at each increment (release-mode wrapping semantics).
* `chrono::NaiveDateTime` is embedded as a record of calendar/time
  components; `chrono`'s ordering on valid datetimes is lexicographic
  on those components.
* Calls to `Local::now()` inside `Entry::new` and `Entry::is_overdue`
  become an explicit `now` parameter.
* The local timezone is modelled as one in which midnight of every
  calendar date exists and is unambiguous (as for any fixed-offset
  zone), so `Local.with_ymd_and_hms(y,m,d,0,0,0).single()` succeeds
  exactly when `(y,m,d)` is a valid in-range calendar date.
* The filesystem is a partial map from paths to stored documents;
  `serde_json` text encoding is modelled at the level of its document
  model (a JSON value tree), with the struct/enum layout taken from the
  `Serialize`/`Deserialize` derives in the source.  Panics (`unwrap`)
  become `Except.error`.
-/

namespace Tda

/-- Wrap an integer into the `i32` range, the semantics of wrapping
`i32` arithmetic in Rust. -/
def wrap32 (n : Int) : Int :=
  ((n + 2 ^ 31) % 2 ^ 32) - 2 ^ 31

/-- Status enum from `src/utils.rs` (variants in source order). -/
inductive Status where
  | Done
  | Todo
  | Overdue
deriving DecidableEq

/-- Embedding of `chrono::NaiveDateTime`: calendar date plus
time-of-day components. -/
structure NaiveDateTime where
  year : Int
  month : Nat
  day : Nat
  hour : Nat
  minute : Nat
  second : Nat
deriving DecidableEq

namespace NaiveDateTime

/-- Strict chronological order on datetimes: lexicographic on the
components (this is `chrono`'s order restricted to valid datetimes). -/
def ltb (a b : NaiveDateTime) : Bool :=
  if a.year ≠ b.year then decide (a.year < b.year)
  else if a.month ≠ b.month then decide (a.month < b.month)
  else if a.day ≠ b.day then decide (a.day < b.day)
  else if a.hour ≠ b.hour then decide (a.hour < b.hour)
  else if a.minute ≠ b.minute then decide (a.minute < b.minute)
  else decide (a.second < b.second)

end NaiveDateTime

/-- The `Entry` struct from `src/utils.rs`: a single task. -/
structure Entry where
  id : Int
  task : String
  status : Status
  timestamp : NaiveDateTime
  deadline : Option NaiveDateTime
deriving DecidableEq

namespace Entry

/-- Embedding of `Entry::new`: a fresh task in `Todo` status, with the
creation time (`Local::now()` in the source) passed explicitly. -/
def new (id : Int) (name : String) (deadline : Option NaiveDateTime)
    (now : NaiveDateTime) : Entry :=
  { id := id, task := name, status := Status.Todo,
    timestamp := now, deadline := deadline }

/-- Embedding of `Entry::is_overdue`: true iff a deadline is present
and strictly before the current time (`Local::now()` in the source,
passed explicitly). The current `status` is not consulted. -/
def is_overdue (e : Entry) (now : NaiveDateTime) : Bool :=
  match e.deadline with
  | some d => d.ltb now
  | none => false

end Entry

/-- The `List` struct from `src/utils.rs` (renamed: `List` is taken by
the Lean prelude). -/
structure TaskList where
  entries : List Entry
  id_tracker : Int
deriving DecidableEq

namespace TaskList

/-- Embedding of `List::new`. -/
def new : TaskList :=
  { entries := [], id_tracker := 0 }

/-- Embedding of `List::get_size`. -/
def get_size (l : TaskList) : Nat :=
  l.entries.length

/-- Embedding of `List::get_cursor`. -/
def get_cursor (l : TaskList) : Int :=
  l.id_tracker

/-- Embedding of `List::inc_cursor` (`self.id_tracker += 1`, an `i32`
increment, hence the explicit wrap). -/
def inc_cursor (l : TaskList) : TaskList :=
  { l with id_tracker := wrap32 (l.id_tracker + 1) }

/-- Embedding of `List::add_task`.  Note the source's empty-name guard
only prints a message and does not return, so the entry is appended and
the cursor incremented unconditionally; the Rust function's return type
is `()`.  The `now` argument is the `Local::now()` read inside
`Entry::new`. -/
def add_task (l : TaskList) (task : String)
    (deadline : Option NaiveDateTime) (now : NaiveDateTime) : TaskList :=
  let new_task := Entry.new l.get_cursor task deadline now
  inc_cursor { l with entries := l.entries ++ [new_task] }

/-- The full result of a call to `List::add_task`: the mutated list
together with the Rust function's return value, which is `()`. -/
def add_task_call (l : TaskList) (task : String)
    (deadline : Option NaiveDateTime) (now : NaiveDateTime) :
    TaskList × Unit :=
  (add_task l task deadline now, ())

/-- Loop body of `List::close_task`: scan the entries in order for the
first one with the given id whose status is not `Done`, and set it to
`Done`; `none` when no such entry exists. -/
def closeGo (es : List Entry) (id : Int) : Option (List Entry) :=
  match es with
  | [] => none
  | e :: rest =>
    if e.id = id ∧ e.status ≠ Status.Done then
      some ({ e with status := Status.Done } :: rest)
    else
      (closeGo rest id).map (e :: ·)

/-- Embedding of `List::close_task`: returns the mutated list and the
`Result` value (the error carries the message built in the source). -/
def close_task (l : TaskList) (id : Int) : TaskList × Except String Unit :=
  match closeGo l.entries id with
  | some es => ({ l with entries := es }, Except.ok ())
  | none =>
    (l, Except.error ("Open task with id " ++ toString id ++ " not found"))

/-- Counts held by the `HashMap<Status, u8>` that `List::get_status`
builds (one key per status, initialised to zero). -/
structure StatusCounts where
  todo : Nat
  done : Nat
  overdue : Nat
deriving DecidableEq

/-- One step of the counting loop in `List::get_status`: increment the
counter of the entry's status.  The counters are `u8`, hence the
explicit `% 256`. -/
def tallyStep (c : StatusCounts) (e : Entry) : StatusCounts :=
  match e.status with
  | Status.Todo => { c with todo := (c.todo + 1) % 256 }
  | Status.Done => { c with done := (c.done + 1) % 256 }
  | Status.Overdue => { c with overdue := (c.overdue + 1) % 256 }

/-- Embedding of `List::get_status`: fold the counting loop over the
entries starting from all-zero counts. -/
def get_status (l : TaskList) : StatusCounts :=
  l.entries.foldl tallyStep { todo := 0, done := 0, overdue := 0 }

/-- Per-entry action of `List::check_overdues`: any entry past its
deadline has its status set to `Overdue` — the source does not test the
current status. -/
def sweepEntry (now : NaiveDateTime) (e : Entry) : Entry :=
  if e.is_overdue now then { e with status := Status.Overdue } else e

/-- Embedding of `List::check_overdues` (`now` is the `Local::now()`
read inside each `is_overdue` call; the loop runs left to right and the
time is read fresh each iteration, but status never affects
`is_overdue`, so a single `now` parameter is faithful for any fixed
instant). -/
def check_overdues (l : TaskList) (now : NaiveDateTime) : TaskList :=
  { l with entries := l.entries.map (sweepEntry now) }

end TaskList

/-! ## Persistence (`open_file`, `read_or_create`, `export` in the source)

The document model of `serde_json`: a tree of JSON values.  The
encoders below follow the `Serialize` derives on `Entry`, `Status` and
`List` in the source (field names, the three status tokens, `null` for
a missing deadline); a datetime is stored with all of its components,
matching `chrono`'s lossless serialization. -/

inductive Json where
  | null
  | num (n : Int)
  | str (s : String)
  | arr (xs : List Json)
  | obj (fields : List (String × Json))

/-- Least and greatest `i32` values, the range the `serde`
deserializer accepts for the `i32` fields. -/
def i32Min : Int := -(2 ^ 31)

/-- Greatest `i32` value. -/
def i32Max : Int := 2 ^ 31 - 1

/-- Serialization of a `NaiveDateTime`: all components, losslessly. -/
def encodeNDT (t : NaiveDateTime) : Json :=
  Json.arr [Json.num t.year, Json.num t.month, Json.num t.day,
            Json.num t.hour, Json.num t.minute, Json.num t.second]

/-- Deserialization of a `NaiveDateTime`. -/
def decodeNDT (j : Json) : Option NaiveDateTime :=
  match j with
  | Json.arr [Json.num y, Json.num mo, Json.num d,
              Json.num h, Json.num mi, Json.num s] =>
    if 0 ≤ mo ∧ 0 ≤ d ∧ 0 ≤ h ∧ 0 ≤ mi ∧ 0 ≤ s then
      some { year := y, month := mo.toNat, day := d.toNat,
             hour := h.toNat, minute := mi.toNat, second := s.toNat }
    else none
  | _ => none

/-- Serialization of a `Status`: the derive writes the variant name. -/
def encodeStatus (s : Status) : Json :=
  match s with
  | Status.Done => Json.str "Done"
  | Status.Todo => Json.str "Todo"
  | Status.Overdue => Json.str "Overdue"

/-- Deserialization of a `Status`: exactly the three variant tokens. -/
def decodeStatus (j : Json) : Option Status :=
  match j with
  | Json.str "Done" => some Status.Done
  | Json.str "Todo" => some Status.Todo
  | Json.str "Overdue" => some Status.Overdue
  | _ => none

/-- Serialization of an `Option<NaiveDateTime>` field: `null` for a
missing value, following the derive. -/
def encodeDeadline (d : Option NaiveDateTime) : Json :=
  match d with
  | none => Json.null
  | some t => encodeNDT t

/-- Deserialization of an `Option<NaiveDateTime>` field. -/
def decodeDeadline (j : Json) : Option (Option NaiveDateTime) :=
  match j with
  | Json.null => some none
  | j => (decodeNDT j).map some

/-- Serialization of an `Entry`, field for field in source order. -/
def encodeEntry (e : Entry) : Json :=
  Json.obj [("id", Json.num e.id),
            ("task", Json.str e.task),
            ("status", encodeStatus e.status),
            ("timestamp", encodeNDT e.timestamp),
            ("deadline", encodeDeadline e.deadline)]

/-- Deserialization of an `Entry`; the `id` must fit in `i32`. -/
def decodeEntry (j : Json) : Option Entry :=
  match j with
  | Json.obj [("id", Json.num id), ("task", Json.str task),
              ("status", sj), ("timestamp", tj), ("deadline", dj)] =>
    if i32Min ≤ id ∧ id ≤ i32Max then
      match decodeStatus sj, decodeNDT tj, decodeDeadline dj with
      | some st, some ts, some dl =>
        some { id := id, task := task, status := st,
               timestamp := ts, deadline := dl }
      | _, _, _ => none
    else none
  | _ => none

/-- Deserialization of a list of entries. -/
def decodeEntries (js : List Json) : Option (List Entry) :=
  match js with
  | [] => some []
  | j :: rest =>
    match decodeEntry j, decodeEntries rest with
    | some e, some es => some (e :: es)
    | _, _ => none

/-- Serialization of the whole `List` struct. -/
def encodeList (l : TaskList) : Json :=
  Json.obj [("entries", Json.arr (l.entries.map encodeEntry)),
            ("id_tracker", Json.num l.id_tracker)]

/-- Deserialization of the whole `List` struct; the cursor must fit in
`i32`. -/
def decodeList (j : Json) : Option TaskList :=
  match j with
  | Json.obj [("entries", Json.arr js), ("id_tracker", Json.num c)] =>
    if i32Min ≤ c ∧ c ≤ i32Max then
      match decodeEntries js with
      | some es => some { entries := es, id_tracker := c }
      | none => none
    else none
  | _ => none

/-- The filesystem: a partial map from paths to stored documents. -/
def FS : Type := String → Option Json

/-- Embedding of `open_file`: read the file and deserialize it.  Both
`unwrap`s in the source panic on failure; a panic is an error result
here (a missing file or undeserializable content never yields a
`List`). -/
def open_file (fpath : String) (fs : FS) : Except String TaskList :=
  match fs fpath with
  | none => Except.error "called unwrap on File::open Err"
  | some j =>
    match decodeList j with
    | some l => Except.ok l
    | none => Except.error "called unwrap on serde_json::from_reader Err"

/-- Embedding of `read_or_create`: `open_file` when the path exists,
otherwise a fresh empty list. -/
def read_or_create (fpath : String) (fs : FS) : Except String TaskList :=
  if (fs fpath).isSome then open_file fpath fs else Except.ok TaskList.new

/-- Embedding of `export` (renamed: `export` is a Lean keyword):
serialize the list and overwrite the file at `fpath`. -/
def export_file (l : TaskList) (fpath : String) (fs : FS) : FS :=
  fun p => if p = fpath then some (encodeList l) else fs p

/-! ## Deadline parsing (`parse_deadline` in the source) -/

/-- Drop one trailing newline, as the `ends_with("\n")` / `pop` pair in
the source does. -/
def rstripNl (s : List Char) : List Char :=
  if s.getLast? = some '\n' then s.dropLast else s

/-- Rust `str::split("-")` on the characters of the string: every
occurrence of the separator delimits a (possibly empty) piece, and the
empty string yields one empty piece.  The result is always nonempty,
so `headI`/`tail` below never see an empty list. -/
def splitDash : List Char → List (List Char)
  | [] => [[]]
  | c :: rest =>
    let r := splitDash rest
    if c = '-' then [] :: r else (c :: r.headI) :: r.tail

/-- Value of a nonempty string of ASCII digits; `none` if the string
is empty or any character is not a digit.  This is the digit loop
shared by Rust's integer `FromStr` implementations (which compute the
value digit by digit and fail on any non-digit). -/
def digitsVal : List Char → Option Nat
  | [] => none
  | [c] => if c.isDigit then some (c.toNat - '0'.toNat) else none
  | c :: rest =>
    if c.isDigit then
      match digitsVal rest with
      | some n => some ((c.toNat - '0'.toNat) * 10 ^ rest.length + n)
      | none => none
    else none

/-- Digit run with the `u32` overflow check, shared by the branches of
`parse_u32`. -/
def u32core (t : List Char) : Option Nat :=
  match digitsVal t with
  | some n => if n ≤ 2 ^ 32 - 1 then some n else none
  | none => none

/-- Rust `str::parse::<u32>()`: an optional leading `+`, then one or
more ASCII digits, with the value required to fit in `u32` (a leading
`-` is not a digit, so it fails). -/
def parse_u32 (s : List Char) : Option Nat :=
  match s with
  | [] => none
  | c :: rest => if c = '+' then u32core rest else u32core (c :: rest)

/-- Digit run with the positive `i32` overflow check, shared by the
non-negative branches of `parse_i32`. -/
def i32core (t : List Char) : Option Int :=
  match digitsVal t with
  | some n => if (n : Int) ≤ i32Max then some (n : Int) else none
  | none => none

/-- Rust `str::parse::<i32>()`: an optional leading `+` or `-`, then
one or more ASCII digits, with the value required to fit in `i32`. -/
def parse_i32 (s : List Char) : Option Int :=
  match s with
  | [] => none
  | c :: rest =>
    if c = '-' then
      match digitsVal rest with
      | some n => if (n : Int) ≤ 2 ^ 31 then some (-(n : Int)) else none
      | none => none
    else if c = '+' then i32core rest
    else i32core (c :: rest)

/-- Proleptic-Gregorian leap-year rule (as implemented by `chrono`). -/
def isLeapYear (y : Int) : Bool :=
  y % 4 = 0 ∧ (y % 100 ≠ 0 ∨ y % 400 = 0)

/-- Number of days in a month of a given year; `0` for an out-of-range
month number. -/
def daysInMonth (y : Int) (m : Nat) : Nat :=
  match m with
  | 1 => 31
  | 2 => if isLeapYear y then 29 else 28
  | 3 => 31
  | 4 => 30
  | 5 => 31
  | 6 => 30
  | 7 => 31
  | 8 => 31
  | 9 => 30
  | 10 => 31
  | 11 => 30
  | 12 => 31
  | _ => 0

/-- Validity of a calendar date as checked by
`Local.with_ymd_and_hms(y, m, d, 0, 0, 0)`: month and day in range for
a real calendar date, and the year within `chrono::NaiveDate`'s
representable range. -/
def dateValid (y : Int) (m d : Nat) : Bool :=
  1 ≤ m ∧ m ≤ 12 ∧ 1 ≤ d ∧ d ≤ daysInMonth y m ∧
    -262144 ≤ y ∧ y ≤ 262143

/-- Result of `Local.with_ymd_and_hms(y, m, d, 0, 0, 0).single()`
followed by `naive_local()` in the modelled local timezone: midnight of
the date when it is valid, `none` otherwise. -/
def midnightOf (y : Int) (m d : Nat) : Option NaiveDateTime :=
  if dateValid y m d then
    some { year := y, month := m, day := d,
           hour := 0, minute := 0, second := 0 }
  else none

/-- Embedding of `parse_deadline`: strip one trailing newline, split
on `-`, require exactly three components, parse them as `i32`/`u32`/
`u32`, and build midnight of the resulting local date. -/
def parse_deadline (deadline_raw : String) : Option NaiveDateTime :=
  match splitDash (rstripNl deadline_raw.data) with
  | [p0, p1, p2] =>
    match parse_i32 p0, parse_u32 p1, parse_u32 p2 with
    | some y, some m, some d => midnightOf y m d
    | _, _, _ => none
  | _ => none

/-! ## Derived helpers and sample data used in the statements below -/

/-- Run a sequence of `add_task` calls (name, deadline, creation time)
left to right. -/
def addAll (l : TaskList)
    (xs : List (String × Option NaiveDateTime × NaiveDateTime)) : TaskList :=
  xs.foldl (fun acc x => acc.add_task x.1 x.2.1 x.2.2) l

/-- Uniqueness of ids across the entries of a list, the data-model
invariant every reachable `TaskList` satisfies. -/
def idsUnique (l : TaskList) : Prop :=
  l.entries.Pairwise (fun a b => a.id ≠ b.id)

/-- All `i32`-typed fields of the list are within the `i32` range:
automatic for the Rust struct, explicit for this `Int`-based
embedding. -/
def wf32 (l : TaskList) : Prop :=
  (∀ e ∈ l.entries, i32Min ≤ e.id ∧ e.id ≤ i32Max) ∧
    i32Min ≤ l.id_tracker ∧ l.id_tracker ≤ i32Max

/-- Sample instant: midnight 2024-01-01. -/
def t2024 : NaiveDateTime := ⟨2024, 1, 1, 0, 0, 0⟩

/-- Sample instant: midnight 2025-01-01. -/
def t2025 : NaiveDateTime := ⟨2025, 1, 1, 0, 0, 0⟩

/-- Sample deadline: midnight 2024-06-01. -/
def dJune : NaiveDateTime := ⟨2024, 6, 1, 0, 0, 0⟩

/-- Sample task with no deadline. -/
def sampleTodo : Entry := ⟨0, "buy milk", Status.Todo, t2024, none⟩

/-- Sample overdue task. -/
def sampleOverdue : Entry := ⟨1, "pay rent", Status.Overdue, t2024, some dJune⟩

/-- Sample open task whose deadline has passed by `t2025`. -/
def sampleDue : Entry := ⟨2, "file taxes", Status.Todo, t2024, some dJune⟩

/-- Sample list with one task of each status. -/
def sampleList : TaskList :=
  ⟨[sampleTodo, sampleOverdue, ⟨3, "call mom", Status.Done, t2024, none⟩], 4⟩

/-! ## Claim C1 -/

/-- Claim C1 (code_bug evidence): `Done` is not terminal in the code.
Starting from a fresh list, add a task with a deadline, close it
(status becomes `Done`), then run `check_overdues` at a later time: the
loop in the source tests only `is_overdue`, never the current status,
so the closed task is moved back to `Overdue`.  The spec says a `Done`
task is untouched by the sweep. -/
theorem sweep_moves_done_task_to_overdue :
    ((TaskList.close_task
        (TaskList.add_task TaskList.new "pay rent" (some dJune) t2024) 0).2
      = Except.ok ())
    ∧ ((TaskList.close_task
          (TaskList.add_task TaskList.new "pay rent" (some dJune) t2024) 0).1.entries.map
            Entry.status = [Status.Done])
    ∧ ((TaskList.check_overdues
          (TaskList.close_task
            (TaskList.add_task TaskList.new "pay rent" (some dJune) t2024) 0).1
          t2025).entries.map Entry.status = [Status.Overdue]) :=
  ⟨rfl, rfl, rfl⟩

/-! ## Claim C2 -/

/-- Claim C2 (code_bug evidence): `add_task` with an empty name does
not fail and does not leave the state unchanged.  The guard in the
source only prints a message and lacks a `return`, so the call appends
an entry with empty name, increases `get_size` from 0 to 1 and advances
the cursor from 0 to 1.  The spec requires a validation error with no
entry appended and no id consumed. -/
theorem add_empty_name_creates_entry :
    (TaskList.add_task TaskList.new "" none t2024).get_size = 1
    ∧ (TaskList.add_task TaskList.new "" none t2024).get_cursor = 1
    ∧ (TaskList.add_task TaskList.new "" none t2024).entries.map Entry.task
        = [""] :=
  ⟨rfl, rfl, rfl⟩

/-! ## Claim C3 -/

lemma closeGo_eq_none_iff (id : Int) (es : List Entry) :
    TaskList.closeGo es id = none
      ↔ ∀ e ∈ es, ¬(e.id = id ∧ e.status ≠ Status.Done) := by
  induction es with
  | nil => simp [TaskList.closeGo]
  | cons e rest ih =>
    by_cases h : e.id = id ∧ e.status ≠ Status.Done
    · simp [TaskList.closeGo, h]
    · rw [TaskList.closeGo, if_neg h]
      simp only [Option.map_eq_none', ih, List.forall_mem_cons]
      exact ⟨fun hr => ⟨h, hr⟩, fun hall => hall.2⟩

lemma closeGo_some_shape (id : Int) :
    ∀ es es' : List Entry, TaskList.closeGo es id = some es' →
      ∃ pre e post, es = pre ++ e :: post ∧ e.id = id ∧
        e.status ≠ Status.Done ∧
        es' = pre ++ { e with status := Status.Done } :: post ∧
        ∀ x ∈ pre, ¬(x.id = id ∧ x.status ≠ Status.Done) := by
  intro es
  induction es with
  | nil => intro es' h; simp [TaskList.closeGo] at h
  | cons e rest ih =>
    intro es' h
    by_cases hc : e.id = id ∧ e.status ≠ Status.Done
    · rw [TaskList.closeGo, if_pos hc] at h
      refine ⟨[], e, rest, by simp, hc.1, hc.2, ?_, by simp⟩
      simpa using h.symm
    · rw [TaskList.closeGo, if_neg hc] at h
      obtain ⟨es'', h1, h2⟩ := Option.map_eq_some'.mp h
      obtain ⟨pre, e0, post, hsplit, hid, hst, hshape, hpre⟩ := ih es'' h1
      refine ⟨e :: pre, e0, post, by simp [hsplit], hid, hst, ?_, ?_⟩
      · simp [← h2, hshape]
      · intro x hx
        rcases List.mem_cons.mp hx with hx | hx
        · exact hx ▸ hc
        · exact hpre x hx

/-- Claim C3: `close_task(id)` succeeds exactly when an entry with
that id exists whose status is not `Done` (an `Overdue` entry
qualifies); on failure — identically for a missing id and for an
already-`Done` task — the state is unchanged and the error is the
single not-found message; after a success, every entry with that id is
`Done`, and a second `close_task(id)` fails with the same not-found
error while leaving the state (hence that `Done` status) unchanged.
The id-uniqueness hypothesis is the data-model invariant of reachable
states. -/
theorem close_task_spec (l : TaskList) (id : Int) (huniq : idsUnique l) :
    ((l.close_task id).2 = Except.ok ()
      ↔ ∃ e ∈ l.entries, e.id = id ∧ e.status ≠ Status.Done)
    ∧ ((l.close_task id).2 ≠ Except.ok () →
        (l.close_task id).1 = l ∧
        (l.close_task id).2
          = Except.error ("Open task with id " ++ toString id ++ " not found"))
    ∧ ((l.close_task id).2 = Except.ok () →
        (∀ e ∈ (l.close_task id).1.entries, e.id = id → e.status = Status.Done)
        ∧ ((l.close_task id).1.close_task id).2
            = Except.error ("Open task with id " ++ toString id ++ " not found")
        ∧ ((l.close_task id).1.close_task id).1 = (l.close_task id).1) := by
  unfold TaskList.close_task
  cases h : TaskList.closeGo l.entries id with
  | none =>
    have hnone := (closeGo_eq_none_iff id l.entries).mp h
    refine ⟨?_, fun _ => ⟨rfl, rfl⟩, ?_⟩
    · simp only [Except.error]
      constructor
      · intro hcontra; exact absurd hcontra (by simp)
      · rintro ⟨e, he, hprop⟩; exact absurd hprop (hnone e he)
    · intro hcontra; exact absurd hcontra (by simp)
  | some es' =>
    obtain ⟨pre, e0, post, hsplit, hid, hst, hshape, hpre⟩ :=
      closeGo_some_shape id l.entries es' h
    have hdone : ∀ e ∈ es', e.id = id → e.status = Status.Done := by
      intro x hx hxid
      rw [hshape] at hx
      rcases List.mem_append.mp hx with hx | hx
      · by_contra hnd
        exact hpre x hx ⟨hxid, hnd⟩
      · rcases List.mem_cons.mp hx with hx | hx
        · rw [hx]
        · exfalso
          have hpw : (e0 :: post).Pairwise (fun a b => a.id ≠ b.id) := by
            have := huniq
            rw [idsUnique, hsplit] at this
            exact (List.pairwise_append.mp this).2.1
          have := (List.pairwise_cons.mp hpw).1 x hx
          exact this (hid.trans hxid.symm)
    have hsecond : TaskList.closeGo es' id = none := by
      rw [closeGo_eq_none_iff]
      intro x hx hprop
      exact hprop.2 (hdone x hx hprop.1)
    refine ⟨?_, ?_, ?_⟩
    · simp only []
      constructor
      · intro _
        exact ⟨e0, by rw [hsplit]; exact List.mem_append_right _ (List.mem_cons_self _ _), hid, hst⟩
      · intro _; trivial
    · intro hcontra; exact absurd rfl hcontra
    · intro _
      refine ⟨hdone, ?_, ?_⟩
      · simp only [TaskList.close_task, hsecond]
      · simp only [TaskList.close_task, hsecond]

/-- Witness for `close_task_spec`: on the sample list, closing the
overdue task with id 1 succeeds, and closing it again fails with the
not-found error. -/
theorem close_task_spec_witness :
    (sampleList.close_task 1).2 = Except.ok ()
    ∧ ((sampleList.close_task 1).1.close_task 1).2
        = Except.error "Open task with id 1 not found" := by
  have h := close_task_spec sampleList 1 (by unfold idsUnique; decide)
  have hok : (sampleList.close_task 1).2 = Except.ok () := rfl
  exact ⟨hok, (h.2.2 hok).2.1⟩

/-! ## Claim C4 -/

lemma wrap32_eq_self {n : Int} (h1 : -(2 ^ 31) ≤ n) (h2 : n ≤ 2 ^ 31 - 1) :
    wrap32 n = n := by
  unfold wrap32
  omega

lemma range_shift (c : Int) (n : Nat) :
    (List.range (n + 1)).map (fun (i : Nat) => c + (i : Int))
      = c :: (List.range n).map (fun (i : Nat) => (c + 1) + (i : Int)) := by
  rw [List.range_succ_eq_map]
  simp only [List.map_cons, List.map_map, Nat.cast_zero, add_zero]
  refine congrArg (c :: ·) (List.map_congr_left ?_)
  intro i _
  simp only [Function.comp_apply]
  push_cast
  ring

lemma addAll_ids :
    ∀ (xs : List (String × Option NaiveDateTime × NaiveDateTime))
      (l : TaskList),
      -(2 ^ 31) ≤ l.id_tracker →
      l.id_tracker + (xs.length : Int) ≤ 2 ^ 31 - 1 →
      (addAll l xs).id_tracker = l.id_tracker + (xs.length : Int) ∧
      (addAll l xs).entries.map Entry.id
        = l.entries.map Entry.id
            ++ (List.range xs.length).map (fun (i : Nat) => l.id_tracker + (i : Int)) := by
  intro xs
  induction xs with
  | nil => intro l _ _; simp [addAll]
  | cons x xs ih =>
    intro l h1 h2
    have hlen : (((x :: xs).length : Nat) : Int) = (xs.length : Int) + 1 := by
      simp
    rw [hlen] at h2
    have hcur : (l.add_task x.1 x.2.1 x.2.2).id_tracker = l.id_tracker + 1 := by
      simp only [TaskList.add_task, TaskList.inc_cursor]
      exact wrap32_eq_self (by omega) (by omega)
    have hents : (l.add_task x.1 x.2.1 x.2.2).entries
        = l.entries ++ [Entry.new l.get_cursor x.1 x.2.1 x.2.2] := rfl
    have haddall : addAll l (x :: xs) = addAll (l.add_task x.1 x.2.1 x.2.2) xs :=
      rfl
    obtain ⟨ihc, ihe⟩ := ih (l.add_task x.1 x.2.1 x.2.2)
      (by rw [hcur]; omega) (by rw [hcur]; omega)
    constructor
    · rw [haddall, ihc, hcur, hlen]
      ring
    · rw [haddall, ihe, hcur, hents]
      have hlc : (x :: xs).length = xs.length + 1 := rfl
      rw [hlc, range_shift]
      simp [Entry.new, TaskList.get_cursor, List.append_assoc]

/-- Claim C4 counterexample: `add_task` does not return the assigned
id.  Its Rust return type is `()`: two calls that assign the distinct
ids 0 and 1 produce identical return values, so the returned value
cannot be the assigned id. -/
theorem add_task_returns_unit_not_id :
    (TaskList.add_task_call TaskList.new "buy milk" none t2024).1.entries.map
        Entry.id = [0]
    ∧ (TaskList.add_task_call
        (TaskList.add_task_call TaskList.new "buy milk" none t2024).1
        "pay rent" none t2024).1.entries.map Entry.id = [0, 1]
    ∧ (TaskList.add_task_call TaskList.new "buy milk" none t2024).2
        = (TaskList.add_task_call
            (TaskList.add_task_call TaskList.new "buy milk" none t2024).1
            "pay rent" none t2024).2 :=
  ⟨rfl, rfl, rfl⟩

/-- Claim C4 (amended): for every sequence of `add_task` calls with
non-empty names starting from a fresh list — fewer than `2^31` of
them, the `i32` cursor range — the assigned ids are exactly
`0, 1, 2, …` in call order, `get_size` equals the number of adds, and
the id cursor equals the number of adds.  The original claim's final
conjunct is dropped: `add_task` returns `()`, not the assigned id (see
the counterexample). -/
theorem add_task_ids_sequential
    (xs : List (String × Option NaiveDateTime × NaiveDateTime))
    (_hne : ∀ x ∈ xs, x.1 ≠ "") (hlen : xs.length < 2 ^ 31) :
    (addAll TaskList.new xs).entries.map Entry.id
        = (List.range xs.length).map (fun (i : Nat) => (i : Int))
    ∧ (addAll TaskList.new xs).get_size = xs.length
    ∧ (addAll TaskList.new xs).get_cursor = (xs.length : Int) := by
  have h1 : -(2 ^ 31) ≤ TaskList.new.id_tracker := by norm_num [TaskList.new]
  have h2 : TaskList.new.id_tracker + (xs.length : Int) ≤ 2 ^ 31 - 1 := by
    simp only [TaskList.new]
    omega
  obtain ⟨hc, he⟩ := addAll_ids xs TaskList.new h1 h2
  refine ⟨?_, ?_, ?_⟩
  · rw [he]
    simp [TaskList.new]
  · have hl : (addAll TaskList.new xs).get_size
        = ((addAll TaskList.new xs).entries.map Entry.id).length :=
      (List.length_map _ _).symm
    rw [hl, he]
    simp [TaskList.new]
  · show (addAll TaskList.new xs).id_tracker = (xs.length : Int)
    rw [hc]
    simp [TaskList.new]

/-- Witness for `add_task_ids_sequential`: two adds from a fresh list
assign ids 0 and 1, with size and cursor equal to 2. -/
theorem add_task_ids_sequential_witness :
    (addAll TaskList.new
        [("buy milk", none, t2024), ("pay rent", some dJune, t2024)]).entries.map
      Entry.id = [0, 1]
    ∧ (addAll TaskList.new
        [("buy milk", none, t2024), ("pay rent", some dJune, t2024)]).get_size
        = 2
    ∧ (addAll TaskList.new
        [("buy milk", none, t2024), ("pay rent", some dJune, t2024)]).get_cursor
        = 2 := by
  obtain ⟨h1, h2, h3⟩ := add_task_ids_sequential
    [("buy milk", none, t2024), ("pay rent", some dJune, t2024)]
    (by decide) (by norm_num)
  exact ⟨h1.trans (by decide), h2, h3⟩

/-! ## Claim C5 -/

lemma decodeNDT_encodeNDT (t : NaiveDateTime) :
    decodeNDT (encodeNDT t) = some t := by
  simp [encodeNDT, decodeNDT]

lemma decodeStatus_encodeStatus (s : Status) :
    decodeStatus (encodeStatus s) = some s := by
  cases s <;> rfl

lemma decodeDeadline_encodeDeadline (d : Option NaiveDateTime) :
    decodeDeadline (encodeDeadline d) = some d := by
  cases d with
  | none => rfl
  | some t =>
    show decodeDeadline (encodeNDT t) = some (some t)
    rw [show decodeDeadline (encodeNDT t) = (decodeNDT (encodeNDT t)).map some
        from rfl]
    rw [decodeNDT_encodeNDT]
    rfl

lemma decodeEntry_encodeEntry (e : Entry)
    (h : i32Min ≤ e.id ∧ e.id ≤ i32Max) :
    decodeEntry (encodeEntry e) = some e := by
  simp only [encodeEntry, decodeEntry, if_pos h, decodeStatus_encodeStatus,
    decodeNDT_encodeNDT, decodeDeadline_encodeDeadline]

lemma decodeEntries_encode (es : List Entry)
    (h : ∀ e ∈ es, i32Min ≤ e.id ∧ e.id ≤ i32Max) :
    decodeEntries (es.map encodeEntry) = some es := by
  induction es with
  | nil => rfl
  | cons e rest ih =>
    have he := decodeEntry_encodeEntry e (h e (List.mem_cons_self _ _))
    have hr := ih (fun x hx => h x (List.mem_cons_of_mem _ hx))
    simp only [List.map_cons, decodeEntries, he, hr]

lemma decodeList_encodeList (l : TaskList) (h : wf32 l) :
    decodeList (encodeList l) = some l := by
  obtain ⟨hids, hcur⟩ := h
  simp only [encodeList, decodeList, if_pos hcur,
    decodeEntries_encode l.entries hids]

/-- Claim C5: persistence round-trip.  For every `TaskList` state
(with its `i32` fields in range, automatic for the Rust struct),
saving to a location and loading from that same location — through
`open_file` directly or through `read_or_create` — reproduces an equal
`TaskList`: same entries in the same order with identical fields, same
cursor. -/
theorem save_load_roundtrip (l : TaskList) (fs : FS) (fpath : String)
    (h : wf32 l) :
    open_file fpath (export_file l fpath fs) = Except.ok l
    ∧ read_or_create fpath (export_file l fpath fs) = Except.ok l := by
  have hread : export_file l fpath fs fpath = some (encodeList l) := by
    unfold export_file
    rw [if_pos rfl]
  have hopen : open_file fpath (export_file l fpath fs) = Except.ok l := by
    unfold open_file
    rw [hread]
    simp only [decodeList_encodeList l h]
  refine ⟨hopen, ?_⟩
  unfold read_or_create
  rw [hread]
  simpa using hopen

/-- Witness for `save_load_roundtrip`: saving the sample list over an
empty filesystem and loading it back returns exactly the sample
list. -/
theorem save_load_roundtrip_witness :
    open_file "tasks.json"
        (export_file sampleList "tasks.json" (fun _ => none))
        = Except.ok sampleList
    ∧ read_or_create "tasks.json"
        (export_file sampleList "tasks.json" (fun _ => none))
        = Except.ok sampleList := by
  exact save_load_roundtrip sampleList (fun _ => none) "tasks.json"
    (by unfold wf32; decide)

/-! ## Claim C6 -/

lemma sweepEntry_deadline (now : NaiveDateTime) (e : Entry) :
    (TaskList.sweepEntry now e).deadline = e.deadline := by
  unfold TaskList.sweepEntry
  split <;> rfl

lemma is_overdue_ignores_status (e : Entry) (s : Status)
    (now : NaiveDateTime) :
    Entry.is_overdue { e with status := s } now = e.is_overdue now := rfl

lemma sweepEntry_idem (now : NaiveDateTime) (e : Entry) :
    TaskList.sweepEntry now (TaskList.sweepEntry now e)
      = TaskList.sweepEntry now e := by
  cases h : e.is_overdue now with
  | true =>
    have h2 : Entry.is_overdue { e with status := Status.Overdue } now
        = true := h
    simp [TaskList.sweepEntry, h, h2]
  | false =>
    simp [TaskList.sweepEntry, h]

/-- Claim C6: the overdue sweep is idempotent for a fixed `now` — the
whole sweep is the entrywise map of `sweepEntry`, and `sweepEntry` is
idempotent; an entry in `Todo` status whose deadline is strictly before
`now` is sent to `Overdue`; an entry with no deadline is left exactly
as it is (so it never becomes `Overdue`); and `is_overdue` is true iff
a deadline is present and strictly before `now`, independently of the
current status and without mutating anything (it is a pure function in
this embedding). -/
theorem sweep_overdue_spec (l : TaskList) (now : NaiveDateTime) :
    (l.check_overdues now).check_overdues now = l.check_overdues now
    ∧ (l.check_overdues now).entries = l.entries.map (TaskList.sweepEntry now)
    ∧ (∀ e : Entry, ∀ d : NaiveDateTime, e.status = Status.Todo →
        e.deadline = some d → d.ltb now = true →
        (TaskList.sweepEntry now e).status = Status.Overdue)
    ∧ (∀ e : Entry, e.deadline = none → TaskList.sweepEntry now e = e)
    ∧ (∀ e : Entry, e.is_overdue now = true
        ↔ ∃ d, e.deadline = some d ∧ d.ltb now = true)
    ∧ (∀ e : Entry, ∀ s : Status,
        Entry.is_overdue { e with status := s } now = e.is_overdue now) := by
  refine ⟨?_, rfl, ?_, ?_, ?_, fun e s => is_overdue_ignores_status e s now⟩
  · unfold TaskList.check_overdues
    simp [List.map_map, Function.comp, sweepEntry_idem]
  · intro e d _ hdl hlt
    unfold TaskList.sweepEntry
    rw [if_pos (show e.is_overdue now = true from by
      unfold Entry.is_overdue
      rw [hdl]
      exact hlt)]
  · intro e hdl
    unfold TaskList.sweepEntry
    rw [if_neg (by unfold Entry.is_overdue; rw [hdl]; simp)]
  · intro e
    unfold Entry.is_overdue
    cases hdl : e.deadline with
    | none => simp
    | some d => simp

/-- Witness for `sweep_overdue_spec`: on the sample list at the later
instant, sweeping twice equals sweeping once, and the sample entry in
`Todo` status with the passed deadline is sent to `Overdue`. -/
theorem sweep_overdue_spec_witness :
    (sampleList.check_overdues t2025).check_overdues t2025
        = sampleList.check_overdues t2025
    ∧ (TaskList.sweepEntry t2025 sampleDue).status = Status.Overdue := by
  have h := sweep_overdue_spec sampleList t2025
  exact ⟨h.1, h.2.2.1 sampleDue dJune (by decide) (by decide) (by decide)⟩

/-! ## Claim C7 -/

/-- Number of entries of a given status, as an unbounded count. -/
def statusCount (s : Status) (es : List Entry) : Nat :=
  es.countP (fun e => decide (e.status = s))

lemma statusCount_cons (s : Status) (e : Entry) (es : List Entry) :
    statusCount s (e :: es)
      = statusCount s es + (if e.status = s then 1 else 0) := by
  unfold statusCount
  rw [List.countP_cons]
  split <;> simp_all

lemma tally_fold (es : List Entry) :
    ∀ c : TaskList.StatusCounts,
      c.todo < 256 → c.done < 256 → c.overdue < 256 →
      es.foldl TaskList.tallyStep c
        = { todo := (c.todo + statusCount Status.Todo es) % 256,
            done := (c.done + statusCount Status.Done es) % 256,
            overdue := (c.overdue + statusCount Status.Overdue es) % 256 } := by
  induction es with
  | nil =>
    intro c h1 h2 h3
    obtain ⟨ct, cd, co⟩ := c
    simp only at h1 h2 h3
    simp only [List.foldl_nil, statusCount, List.countP_nil]
    congr 1 <;> omega
  | cons e rest ih =>
    intro c h1 h2 h3
    rw [List.foldl_cons]
    cases hst : e.status
    case Todo =>
      simp only [TaskList.tallyStep, hst]
      rw [ih _ (by simp; omega) (by simp; omega) (by simp; omega)]
      simp only [statusCount_cons, hst]
      congr 1; simp; omega
    case Done =>
      simp only [TaskList.tallyStep, hst]
      rw [ih _ (by simp; omega) (by simp; omega) (by simp; omega)]
      simp only [statusCount_cons, hst]
      congr 1; simp; omega
    case Overdue =>
      simp only [TaskList.tallyStep, hst]
      rw [ih _ (by simp; omega) (by simp; omega) (by simp; omega)]
      simp only [statusCount_cons, hst]
      congr 1; simp; omega

lemma statusCount_total (es : List Entry) :
    statusCount Status.Todo es + statusCount Status.Done es
      + statusCount Status.Overdue es = es.length := by
  induction es with
  | nil => rfl
  | cons e rest ih =>
    simp only [statusCount_cons, List.length_cons]
    cases e.status <;> simp <;> omega

lemma addAll_statuses :
    ∀ (xs : List (String × Option NaiveDateTime × NaiveDateTime))
      (l : TaskList),
      (addAll l xs).entries.map Entry.status
        = l.entries.map Entry.status
            ++ List.replicate xs.length Status.Todo := by
  intro xs
  induction xs with
  | nil => intro l; simp [addAll]
  | cons x xs ih =>
    intro l
    have hstep : addAll l (x :: xs) = addAll (l.add_task x.1 x.2.1 x.2.2) xs :=
      rfl
    rw [hstep, ih]
    simp [TaskList.add_task, TaskList.inc_cursor, Entry.new,
      List.replicate_succ]

lemma countP_replicate {α : Type} (p : α → Bool) (a : α) (n : Nat) :
    List.countP p (List.replicate n a) = if p a then n else 0 := by
  induction n with
  | zero => simp
  | succ n ih =>
    rw [List.replicate_succ, List.countP_cons]
    split <;> simp_all

lemma statusCount_by_statuses (s : Status) (es : List Entry) :
    statusCount s es
      = List.countP (fun st => decide (st = s)) (es.map Entry.status) := by
  unfold statusCount
  rw [List.countP_map]
  rfl

/-- The reachable state used as the C7 counterexample: 256 `add_task`
calls with a non-empty name from a fresh list. -/
def list256 : TaskList :=
  addAll TaskList.new (List.replicate 256 ("task", none, t2024))

lemma list256_statuses :
    list256.entries.map Entry.status = List.replicate 256 Status.Todo := by
  unfold list256
  rw [addAll_statuses]
  rw [show TaskList.new.entries.map Entry.status = [] from rfl]
  rw [List.nil_append, List.length_replicate]

lemma list256_size : list256.get_size = 256 := by
  have h := congrArg List.length list256_statuses
  rw [List.length_map, List.length_replicate] at h
  exact h

lemma list256_counts :
    statusCount Status.Todo list256.entries = 256
    ∧ statusCount Status.Done list256.entries = 0
    ∧ statusCount Status.Overdue list256.entries = 0 := by
  refine ⟨?_, ?_, ?_⟩ <;>
    rw [statusCount_by_statuses, list256_statuses, countP_replicate] <;>
    simp

/-- Claim C7 counterexample: the `u8` counters overflow.  On the
reachable state built by 256 `add_task` calls with a non-empty name,
`get_status` reports 0 for every status (the 256th `u8` increment
wraps to 0; in a debug build it panics instead), so the three counts
sum to 0 while `get_size` is 256 — refuting "the three counts sum to
`size()` for every reachable state". -/
theorem tally_overflow_at_256 :
    list256.get_size = 256
    ∧ list256.get_status = { todo := 0, done := 0, overdue := 0 }
    ∧ ¬(list256.get_status.todo + list256.get_status.done
          + list256.get_status.overdue = list256.get_size) := by
  have hfold := tally_fold list256.entries
    { todo := 0, done := 0, overdue := 0 } (by decide) (by decide) (by decide)
  have hstat : list256.get_status = { todo := 0, done := 0, overdue := 0 } := by
    unfold TaskList.get_status
    rw [hfold, list256_counts.1, list256_counts.2.1, list256_counts.2.2]
    decide
  refine ⟨list256_size, hstat, ?_⟩
  rw [hstat, list256_size]
  decide

/-- Claim C7 (amended): `get_status` returns a count for each of the
three statuses (zero included), each equal to the number of current
entries of that status reduced modulo 256 (the counters are `u8`); the
three counts sum to `get_size` for every state with at most 255
entries, and in general the sum is only congruent to `get_size` modulo
256. -/
theorem tally_by_status_spec (l : TaskList) :
    l.get_status.todo = statusCount Status.Todo l.entries % 256
    ∧ l.get_status.done = statusCount Status.Done l.entries % 256
    ∧ l.get_status.overdue = statusCount Status.Overdue l.entries % 256
    ∧ (l.get_status.todo + l.get_status.done + l.get_status.overdue) % 256
        = l.get_size % 256
    ∧ (l.get_size ≤ 255 →
        l.get_status.todo + l.get_status.done + l.get_status.overdue
          = l.get_size) := by
  have hfold := tally_fold l.entries
    { todo := 0, done := 0, overdue := 0 } (by decide) (by decide) (by decide)
  have htot := statusCount_total l.entries
  have hts : l.get_status.todo = statusCount Status.Todo l.entries % 256 := by
    rw [TaskList.get_status, hfold]
    simp
  have hds : l.get_status.done = statusCount Status.Done l.entries % 256 := by
    rw [TaskList.get_status, hfold]
    simp
  have hos : l.get_status.overdue
      = statusCount Status.Overdue l.entries % 256 := by
    rw [TaskList.get_status, hfold]
    simp
  have hsize : l.get_size = l.entries.length := rfl
  refine ⟨hts, hds, hos, ?_, ?_⟩
  · rw [hts, hds, hos, hsize]
    omega
  · intro hle
    rw [hsize] at hle ⊢
    rw [hts, hds, hos]
    have h1 : statusCount Status.Todo l.entries ≤ l.entries.length :=
      List.countP_le_length _
    have h2 : statusCount Status.Done l.entries ≤ l.entries.length :=
      List.countP_le_length _
    have h3 : statusCount Status.Overdue l.entries ≤ l.entries.length :=
      List.countP_le_length _
    omega

/-- Witness for `tally_by_status_spec`: on the sample list the counts
are one of each status and sum to `get_size = 3`. -/
theorem tally_by_status_spec_witness :
    sampleList.get_status.todo = 1
    ∧ sampleList.get_status.done = 1
    ∧ sampleList.get_status.overdue = 1
    ∧ sampleList.get_status.todo + sampleList.get_status.done
        + sampleList.get_status.overdue = sampleList.get_size := by
  have h := tally_by_status_spec sampleList
  refine ⟨h.1.trans (by decide), h.2.1.trans (by decide),
    h.2.2.1.trans (by decide), h.2.2.2.2 (by decide)⟩

/-! ## Claim C9 -/

/-- Claim C9 counterexample: a fresh empty `TaskList` is not returned
only when the location does not exist.  Save an empty list first: the
location then exists, yet `read_or_create` still returns the fresh
empty list, refuting the "exactly when" direction of the claim. -/
theorem load_returns_empty_though_file_exists :
    ((export_file TaskList.new "tasks.json" (fun _ => none)) "tasks.json").isSome
        = true
    ∧ read_or_create "tasks.json"
        (export_file TaskList.new "tasks.json" (fun _ => none))
        = Except.ok TaskList.new :=
  ⟨rfl, rfl⟩

/-- Claim C9 (amended): `load` returns a fresh empty `TaskList` when
the location does not exist (though an existing file holding the
serialization of an empty list also loads to an empty list, hence not
"exactly when"); when the location exists, the stored data is
reconstructed exactly when it deserializes, and undeserializable data
is a fatal error for the load (the source panics on the `unwrap`),
never a silent fallback to an empty list. -/
theorem read_or_create_spec (fs : FS) (fpath : String) :
    (fs fpath = none → read_or_create fpath fs = Except.ok TaskList.new)
    ∧ (∀ j, fs fpath = some j →
        (∀ l, decodeList j = some l →
          read_or_create fpath fs = Except.ok l)
        ∧ (decodeList j = none →
            read_or_create fpath fs
              = Except.error "called unwrap on serde_json::from_reader Err")) := by
  constructor
  · intro h
    unfold read_or_create
    rw [h]
    rfl
  · intro j hj
    constructor
    · intro l hl
      unfold read_or_create open_file
      rw [hj]
      simp [hl]
    · intro hl
      unfold read_or_create open_file
      rw [hj]
      simp [hl]

/-- Witness for `read_or_create_spec`: loading from an absent location
yields the fresh empty list; loading an existing but undeserializable
document (`null`) yields the fatal deserialization error. -/
theorem read_or_create_spec_witness :
    read_or_create "tasks.json" (fun _ => none) = Except.ok TaskList.new
    ∧ read_or_create "tasks.json" (fun _ => some Json.null)
        = Except.error "called unwrap on serde_json::from_reader Err" := by
  refine ⟨(read_or_create_spec (fun _ => none) "tasks.json").1 rfl, ?_⟩
  exact ((read_or_create_spec (fun _ => some Json.null) "tasks.json").2
    Json.null rfl).2 rfl

/-! ## Claim C8 -/

lemma parse_len_ne_three (s : String)
    (h : (splitDash (rstripNl s.data)).length ≠ 3) :
    parse_deadline s = none := by
  cases hsp : splitDash (rstripNl s.data) with
  | nil => unfold parse_deadline; rw [hsp]
  | cons p0 t0 =>
    cases t0 with
    | nil => unfold parse_deadline; rw [hsp]
    | cons p1 t1 =>
      cases t1 with
      | nil => unfold parse_deadline; rw [hsp]
      | cons p2 t2 =>
        cases t2 with
        | nil => exact absurd (by rw [hsp]; rfl) h
        | cons p3 t3 => unfold parse_deadline; rw [hsp]

lemma parse_deadline_eq_three (s : String) (p0 p1 p2 : List Char)
    (hsp : splitDash (rstripNl s.data) = [p0, p1, p2]) :
    parse_deadline s
      = match parse_i32 p0, parse_u32 p1, parse_u32 p2 with
        | some y, some m, some d => midnightOf y m d
        | _, _, _ => none := by
  unfold parse_deadline
  rw [hsp]

/-- Claim C8: `parse_deadline` maps the spec's examples as stated
(`"2024-01-01"`, with or without a trailing newline, to midnight of
2024-01-01 local; `"2024-01-011232"`, `""` and `"2024-13-01"` to
absent); any input that does not split into exactly three components
is absent; a non-integer component makes it absent; and with all three
components parsed, the result is midnight of the date when it is a
valid calendar date and absent when it is not. -/
theorem parse_deadline_spec :
    parse_deadline "2024-01-01" = some ⟨2024, 1, 1, 0, 0, 0⟩
    ∧ parse_deadline "2024-01-01\n" = some ⟨2024, 1, 1, 0, 0, 0⟩
    ∧ parse_deadline "2024-01-011232" = none
    ∧ parse_deadline "" = none
    ∧ parse_deadline "2024-13-01" = none
    ∧ (∀ s : String, (splitDash (rstripNl s.data)).length ≠ 3 →
        parse_deadline s = none)
    ∧ (∀ (s : String) (p0 p1 p2 : List Char),
        splitDash (rstripNl s.data) = [p0, p1, p2] →
        (parse_i32 p0 = none ∨ parse_u32 p1 = none ∨ parse_u32 p2 = none) →
        parse_deadline s = none)
    ∧ (∀ (s : String) (p0 p1 p2 : List Char) (y : Int) (m d : Nat),
        splitDash (rstripNl s.data) = [p0, p1, p2] →
        parse_i32 p0 = some y → parse_u32 p1 = some m →
        parse_u32 p2 = some d →
        parse_deadline s = midnightOf y m d
        ∧ (dateValid y m d = true →
            parse_deadline s = some ⟨y, m, d, 0, 0, 0⟩)
        ∧ (dateValid y m d = false → parse_deadline s = none)) := by
  refine ⟨rfl, rfl, rfl, rfl, rfl, parse_len_ne_three, ?_, ?_⟩
  · intro s p0 p1 p2 hsp hnone
    unfold parse_deadline
    rw [hsp]
    cases hy : parse_i32 p0 <;> cases hm : parse_u32 p1 <;>
      cases hd : parse_u32 p2 <;> simp_all
  · intro s p0 p1 p2 y m d hsp hy hm hd
    have hmain : parse_deadline s = midnightOf y m d := by
      rw [parse_deadline_eq_three s p0 p1 p2 hsp, hy, hm, hd]
    refine ⟨hmain, ?_, ?_⟩
    · intro hv
      rw [hmain]
      unfold midnightOf
      rw [hv]
      rfl
    · intro hv
      rw [hmain]
      unfold midnightOf
      rw [hv]
      rfl

/-- Witness for `parse_deadline_spec`: a string with no dash parses to
absent; a leap day in a leap year parses to its midnight; the same day
in a non-leap year is absent. -/
theorem parse_deadline_spec_witness :
    parse_deadline "not a date" = none
    ∧ parse_deadline "2024-02-29" = some ⟨2024, 2, 29, 0, 0, 0⟩
    ∧ parse_deadline "2023-02-29" = none := by
  have h := parse_deadline_spec
  refine ⟨h.2.2.2.2.2.1 "not a date" (by decide), ?_, ?_⟩
  · exact (h.2.2.2.2.2.2.2 "2024-02-29"
      ['2', '0', '2', '4'] ['0', '2'] ['2', '9'] 2024 2 29
      (by decide) (by decide) (by decide) (by decide)).2.1 (by decide)
  · exact (h.2.2.2.2.2.2.2 "2023-02-29"
      ['2', '0', '2', '3'] ['0', '2'] ['2', '9'] 2023 2 29
      (by decide) (by decide) (by decide) (by decide)).2.2 (by decide)

/-! ## Claim C10 -/

lemma splitDash_ne_nil (s : List Char) : splitDash s ≠ [] := by
  cases s with
  | nil => simp [splitDash]
  | cons c rest =>
    unfold splitDash
    split <;> simp

lemma splitDash_no_dash :
    ∀ s : List Char, ∀ p ∈ splitDash s, '-' ∉ p := by
  intro s
  induction s with
  | nil =>
    intro p hp
    simp only [splitDash, List.mem_singleton] at hp
    simp [hp]
  | cons c rest ih =>
    intro p hp
    unfold splitDash at hp
    by_cases hc : c = '-'
    · rw [if_pos hc] at hp
      rcases List.mem_cons.mp hp with h | h
      · simp [h]
      · exact ih p h
    · rw [if_neg hc] at hp
      cases hr : splitDash rest with
      | nil => exact absurd hr (splitDash_ne_nil rest)
      | cons q qs =>
        rw [hr] at hp
        simp only [List.headI, List.tail_cons] at hp
        rcases List.mem_cons.mp hp with h | h
        · subst h
          intro hmem
          rcases List.mem_cons.mp hmem with h2 | h2
          · exact hc h2.symm
          · exact ih q (by rw [hr]; exact List.mem_cons_self _ _) h2
        · exact ih p (by rw [hr]; exact List.mem_cons_of_mem _ h)

lemma i32core_nonneg (t : List Char) (y : Int) (h : i32core t = some y) :
    0 ≤ y := by
  unfold i32core at h
  split at h
  · split at h
    · simp only [Option.some.injEq] at h
      omega
    · exact absurd h (by simp)
  · exact absurd h (by simp)

lemma parse_i32_cons (c : Char) (rest : List Char) :
    parse_i32 (c :: rest)
      = if c = '-' then
          (match digitsVal rest with
           | some n => if (n : Int) ≤ 2 ^ 31 then some (-(n : Int)) else none
           | none => none)
        else if c = '+' then i32core rest
        else i32core (c :: rest) := rfl

lemma parse_i32_nonneg (p : List Char) (hp : '-' ∉ p) (y : Int)
    (hy : parse_i32 p = some y) : 0 ≤ y := by
  cases p with
  | nil => simp [parse_i32] at hy
  | cons c rest =>
    rw [parse_i32_cons] at hy
    by_cases hc : c = '-'
    · exact absurd (hc ▸ List.mem_cons_self c rest) hp
    · rw [if_neg hc] at hy
      by_cases hpl : c = '+'
      · rw [if_pos hpl] at hy
        exact i32core_nonneg rest y hy
      · rw [if_neg hpl] at hy
        exact i32core_nonneg (c :: rest) y hy

/-- Claim C10: any input that does not split on `-` into exactly three
components parses to absent — in particular `"-2024-01-01"`, whose
leading dash produces a fourth (empty) component; and since the split
components never contain a dash, `parse_i32` can only return
non-negative years, so no deadline with a negative year is ever
produced. -/
theorem parse_deadline_components_nonneg_year :
    (∀ s : String, (splitDash (rstripNl s.data)).length ≠ 3 →
        parse_deadline s = none)
    ∧ (splitDash (rstripNl "-2024-01-01".data)).length = 4
    ∧ parse_deadline "-2024-01-01" = none
    ∧ (∀ (s : String) (t : NaiveDateTime),
        parse_deadline s = some t → 0 ≤ t.year) := by
  refine ⟨parse_len_ne_three, by decide, rfl, ?_⟩
  intro s t h
  by_cases hlen : (splitDash (rstripNl s.data)).length = 3
  · obtain ⟨p0, p1, p2, hsp⟩ := List.length_eq_three.mp hlen
    rw [parse_deadline_eq_three s p0 p1 p2 hsp] at h
    cases hy : parse_i32 p0 with
    | none => rw [hy] at h; simp at h
    | some y =>
      rw [hy] at h
      cases hm : parse_u32 p1 with
      | none => rw [hm] at h; simp at h
      | some m =>
        rw [hm] at h
        cases hd : parse_u32 p2 with
        | none => rw [hd] at h; simp at h
        | some d =>
          rw [hd] at h
          have h2 : midnightOf y m d = some t := h
          have hy0 : 0 ≤ y := parse_i32_nonneg p0
            (splitDash_no_dash (rstripNl s.data) p0
              (by rw [hsp]; exact List.mem_cons_self _ _)) y hy
          unfold midnightOf at h2
          split at h2
          · simp only [Option.some.injEq] at h2
            rw [← h2]
            exact hy0
          · exact absurd h2 (by simp)
  · rw [parse_len_ne_three s hlen] at h
    exact absurd h (by simp)

/-- Witness for `parse_deadline_components_nonneg_year`: a two-dash
split with a stray dash elsewhere still fails, and a parsed deadline
has a non-negative year. -/
theorem parse_deadline_components_nonneg_year_witness :
    parse_deadline "12-31" = none ∧ (0 : Int) ≤ 2024 := by
  have h := parse_deadline_components_nonneg_year
  refine ⟨h.1 "12-31" (by decide), ?_⟩
  exact h.2.2.2 "2024-01-01" ⟨2024, 1, 1, 0, 0, 0⟩ rfl

end Tda
